import Mathlib

/-!
Verification of scripts/package_gui.py, a release-packaging utility that
locates a build directory, optionally extracts a binary name from a
manifest, and writes selected files into a zip archive.

The filesystem is modelled explicitly: directory existence is a predicate
on path strings, directory listings and recursive walks are lists of
entries, and every operation that can raise an exception in the source
is modelled with an Option (none standing for the raised exception).
-/

namespace PackageGui

/-- Python str.lower (ASCII model). -/
def strLower (s : String) : String := String.mk (s.data.map Char.toLower)

/-- Helper for pathSuffix: scans the reversed character list of a file name
for the first dot (i.e. the last dot of the name). Following Python
PurePath.suffix, the suffix is empty when the last dot is the first or the
last character of the name. -/
def suffixRevAux (acc : List Char) : List Char → List Char
  | [] => []
  | c :: rest =>
    if c = '.' then (if rest.isEmpty || acc.isEmpty then [] else '.' :: acc)
    else suffixRevAux (c :: acc) rest

/-- Python pathlib's Path.suffix of a final path component: the substring
from the last dot onward, or empty when there is no dot, the dot is the
first character, or the dot is the last character. -/
def pathSuffix (nm : String) : String := String.mk (suffixRevAux [] nm.data.reverse)

/-- A directory entry as the script observes it. The name field is the
final path component; xok is the result of os.access(p, os.X_OK), with
none standing for an exception raised inside the try block of
is_executable; size is p.stat().st_size, with none standing for a stat
exception; mtime is filesystem metadata the script never reads. -/
structure FileEntry where
  name : String
  isFile : Bool
  xok : Option Bool
  size : Option Nat
  content : String
  mtime : Nat
deriving DecidableEq

/-- Source is_executable: suffix '.exe' (lower-cased) is executable;
otherwise os.access X_OK and is_file, with any exception giving False. -/
def is_executable (p : FileEntry) : Bool :=
  if strLower (pathSuffix p.name) = ".exe" then true
  else
    match p.xok with
    | some b => b && p.isFile
    | none => false

/-- Source is_library: suffix (lower-cased) is one of .dll, .so, .dylib. -/
def is_library (p : FileEntry) : Bool :=
  strLower (pathSuffix p.name) = ".dll" ||
  strLower (pathSuffix p.name) = ".so" ||
  strLower (pathSuffix p.name) = ".dylib"

/-- Source find_first_existing: return the first path of the list that
exists on the (modelled) filesystem, else None. -/
def find_first_existing (ex : String → Bool) : List String → Option String
  | [] => none
  | p :: rest => if ex p then some p else find_first_existing ex rest

/-- Python str.strip() whitespace set (space, tab, newline, return,
vertical tab, form feed). -/
def pySpace (c : Char) : Bool :=
  c = ' ' || c = '\t' || c = '\n' || c = '\r' || c = Char.ofNat 11 || c = Char.ofNat 12

/-- Remove characters satisfying a predicate from both ends of a list. -/
def stripEnds (pred : Char → Bool) (cs : List Char) : List Char :=
  ((cs.dropWhile pred).reverse.dropWhile pred).reverse

/-- Python str.strip() with no argument: trim whitespace at both ends. -/
def pyStrip (s : String) : String := String.mk (stripEnds pySpace s.data)

/-- Python str.strip of a double-quote character at both ends. -/
def stripQuotes (s : String) : String := String.mk (stripEnds (fun c => c = '"') s.data)

/-- The characters after the first '=' of a line, none when the line has
no '='; models both the membership test and str.split with maxsplit 1. -/
def afterFirstEq : List Char → Option (List Char)
  | [] => none
  | c :: rest => if c = '=' then some rest else afterFirstEq rest

/-- Source manifest scan (lines 69-76): for each line, strip it; on the
first stripped line that starts with the characters of the word name and
contains an '=', return the substring after the first '=',
whitespace-stripped and then stripped of surrounding double quotes. -/
def extractName : List String → Option String
  | [] => none
  | l :: rest =>
    let line := pyStrip l
    if List.isPrefixOf "name".data line.data then
      match afterFirstEq line.data with
      | some tail => some (stripQuotes (pyStrip (String.mk tail)))
      | none => extractName rest
    else extractName rest

/-- The manifest as the script observes it: none when Cargo.toml does not
exist, some none when read_text raises, some (some lines) otherwise.
bin_name stays None in the first two cases (lines 65-78 of the source). -/
def binNameOf : Option (Option (List String)) → Option String
  | none => none
  | some none => none
  | some (some lines) => extractName lines

/-- Source line 90 guard: bin_name and (name equals bin_name + ".exe" or
name equals bin_name). Python truthiness makes the guard false for a None
or empty binary name. -/
def exactMatch (binName : Option String) (nm : String) : Bool :=
  match binName with
  | some b => !b.isEmpty && (nm = b ++ ".exe" || nm = b)
  | none => false

/-- Source single-mode scan (lines 84-98): iterate the directory entries
keeping an accumulator exe_found; skip non-files; break on an exact
binary-name match; break on a '.exe' suffix; otherwise record the first
executable file in the accumulator and continue. -/
def findExe (binName : Option String) : Option FileEntry → List FileEntry → Option FileEntry
  | acc, [] => acc
  | acc, p :: rest =>
    if !p.isFile then findExe binName acc rest
    else if exactMatch binName p.name then some p
    else if strLower (pathSuffix p.name) = ".exe" then some p
    else if is_executable p && acc.isNone then findExe binName (some p) rest
    else findExe binName acc rest

/-- Single-mode archive contents (lines 100-104): the selected executable
under its base name, or nothing when none was found. Each archive entry is
an (arcname, content) pair. -/
def singleEntries (binName : Option String) (entries : List FileEntry) : List (String × String) :=
  match findExe binName none entries with
  | none => []
  | some e => [(e.name, e.content)]

/-- First-some choice on options, mirroring how a loop break beats the
accumulated fallback. -/
def optOr {α : Type} : Option α → Option α → Option α
  | some x, _ => some x
  | none, b => b

/-- An entry at which the single-mode scan breaks: a regular file that is
an exact binary-name match or has suffix '.exe'. -/
def isBreakMatch (binName : Option String) (p : FileEntry) : Bool :=
  p.isFile && (exactMatch binName p.name || strLower (pathSuffix p.name) = ".exe")

/-- A fallback candidate of the single-mode scan: a regular file passing
the executable test. -/
def isFallback (p : FileEntry) : Bool :=
  p.isFile && is_executable p

/-- Counterexample entry: a '.exe' file that is not the binary name. -/
def ceBar : FileEntry := ⟨"bar.exe", true, some false, some 10, "bar-bytes", 0⟩

/-- Counterexample entry: the exact binary-name match. -/
def ceFoo : FileEntry := ⟨"foo", true, some true, some 20, "foo-bytes", 0⟩

/-- Source full-mode inclusion test (lines 119-129): executables and
libraries, then an extension allow-list, then a size cut-off of 5 MiB
with a stat exception treated as include. -/
def includeFile (p : FileEntry) : Bool :=
  if is_executable p || is_library p then true
  else if strLower (pathSuffix p.name) = ".json" ||
          strLower (pathSuffix p.name) = ".svg" ||
          strLower (pathSuffix p.name) = ".pak" ||
          strLower (pathSuffix p.name) = ".dat" ||
          strLower (pathSuffix p.name) = ".txt" ||
          strLower (pathSuffix p.name) = ".ini" then true
  else
    match p.size with
    | some n => decide (n < 5 * 1024 * 1024)
    | none => true

/-- Source full-mode build loop (lines 115-133): walk the build directory
recursively (a list of pairs of relative path and entry, in walk order)
and write each regular file passing includeFile at its relative path. -/
def addBuildFiles (walk : List (String × FileEntry)) : List (String × String) :=
  walk.filterMap fun rp =>
    if rp.2.isFile && includeFile rp.2 then some (rp.1, rp.2.content) else none

/-- Source assets loop (lines 106-112): when the assets directory exists,
write every regular file of its recursive walk under the assets/ arc
path; otherwise write nothing. -/
def addAssetFiles (assetsExists : Bool) (walk : List (String × FileEntry)) :
    List (String × String) :=
  if assetsExists then
    walk.filterMap fun rp =>
      if rp.2.isFile then some ("assets/" ++ rp.1, rp.2.content) else none
  else []

/-- The inclusion condition exactly as claim C2 spells it: recognized as
executable (extension '.exe', or a regular file passing the
executable-permission check), or a shared-library extension, or an
allow-listed extension, or size strictly below 5 MiB, or size
undeterminable. -/
def claimIncludeC2 (p : FileEntry) : Bool :=
  (strLower (pathSuffix p.name) = ".exe" || (p.isFile && p.xok == some true)) ||
  (strLower (pathSuffix p.name) = ".dll" ||
   strLower (pathSuffix p.name) = ".so" ||
   strLower (pathSuffix p.name) = ".dylib") ||
  (strLower (pathSuffix p.name) = ".json" ||
   strLower (pathSuffix p.name) = ".svg" ||
   strLower (pathSuffix p.name) = ".pak" ||
   strLower (pathSuffix p.name) = ".dat" ||
   strLower (pathSuffix p.name) = ".txt" ||
   strLower (pathSuffix p.name) = ".ini") ||
  (match p.size with
   | some n => decide (n < 5 * 1024 * 1024)
   | none => true)

/-- Modelled from the claim C3 wording (the source is the authority; this
definition exists only for comparison): a line whose stripped form starts
with the token name followed, after optional whitespace, by '='. -/
def specTokenMatch (l : String) : Bool :=
  List.isPrefixOf "name".data (pyStrip l).data &&
    (match ((pyStrip l).data.drop 4).dropWhile pySpace with
     | c :: _ => c = '='
     | [] => false)

/-- The C3 claim's extractor: first line matching the token rule wins,
with the same value parse as the source. -/
def extractNameSpec : List String → Option String
  | [] => none
  | l :: rest =>
    if specTokenMatch l then
      match afterFirstEq (pyStrip l).data with
      | some tail => some (stripQuotes (pyStrip (String.mk tail)))
      | none => extractNameSpec rest
    else extractNameSpec rest

/-- The line test the source actually performs: the stripped line starts
with the characters of the word name and contains an '='. -/
def crudeMatch (l : String) : Bool :=
  List.isPrefixOf "name".data (pyStrip l).data && (afterFirstEq (pyStrip l).data).isSome

/-- The value the source computes from a matching line: substring after
the first '=', whitespace-stripped, then stripped of double quotes. -/
def crudeValue (l : String) : String :=
  match afterFirstEq (pyStrip l).data with
  | some tail => stripQuotes (pyStrip (String.mk tail))
  | none => ""

/-- Command-line options of the script (lines 36-41), after parsing. -/
structure Config where
  crate : String
  assets : String
  out : Option String
  single : Bool

/-- The filesystem and environment a run observes: directory existence,
the build directory's direct listing (iterdir order) and recursive walk
(rglob order, paths relative to the build directory), the assets
directory's recursive walk, the manifest, the environment variable
RUNNER_OS, platform.system(), and whether unlink succeeds. -/
structure FS where
  existsDir : String → Bool
  buildEntries : List FileEntry
  buildWalk : List (String × FileEntry)
  assetsWalk : List (String × FileEntry)
  manifest : Option (Option (List String))
  envRunnerOs : Option String
  platformSystem : String
  unlinkOk : Bool

/-- The candidate build directories (lines 44-51), in priority order. -/
def candidatesOf (crate : String) : List String :=
  [crate ++ "/target/x86_64-unknown-linux-musl/release",
   crate ++ "/target/release",
   "target/x86_64-unknown-linux-musl/release",
   "target/release",
   crate ++ "/target/debug",
   "target/debug"]

/-- Python's or between a possibly missing string and a fallback: the
first operand wins only when present and nonempty (truthiness). -/
def pyOrStr (a : Option String) (b : String) : String :=
  match a with
  | some s => if s.isEmpty then b else s
  | none => b

/-- Line 58: os.getenv RUNNER_OS or platform.system(). -/
def runnerOsOf (fs : FS) : String := pyOrStr fs.envRunnerOs fs.platformSystem

/-- Line 59: the --out argument when truthy, else the derived default
archive name. -/
def outPathOf (cfg : Config) (fs : FS) : String :=
  match cfg.out with
  | some o => if o.isEmpty then "gui-" ++ runnerOsOf fs ++ ".zip" else o
  | none => "gui-" ++ runnerOsOf fs ++ ".zip"

/-- The archive contents one run produces (lines 81-133): single mode
packages the selected executable under its base name; full mode packages
the assets walk then the filtered build walk. -/
def archiveEntriesOf (cfg : Config) (fs : FS) : List (String × String) :=
  if cfg.single then singleEntries (binNameOf fs.manifest) fs.buildEntries
  else addAssetFiles (fs.existsDir cfg.assets) fs.assetsWalk ++ addBuildFiles fs.buildWalk

/-- Observable outcome of a run: the exit code, both output streams, and
the archive left on disk (none when no archive file remains). -/
structure RunResult where
  exitCode : Nat
  stdout : List String
  stderr : List String
  archiveOnDisk : Option (List (String × String))
deriving DecidableEq

/-- The script's main (lines 35-144): locate the build directory or exit
2; build the archive; on zero files added, attempt to delete the archive
(exception swallowed), report and exit 3; otherwise print the archive
path and exit 0. -/
def runMain (cfg : Config) (fs : FS) : RunResult :=
  match find_first_existing fs.existsDir (candidatesOf cfg.crate) with
  | none =>
    ⟨2, [],
     ["No build directory found among: " ++ String.intercalate "," (candidatesOf cfg.crate)],
     none⟩
  | some base =>
    let outPath := outPathOf cfg fs
    let binName := binNameOf fs.manifest
    let entries := archiveEntriesOf cfg fs
    let singleErr : List String :=
      if cfg.single && (findExe binName none fs.buildEntries).isNone
      then ["No executable found in " ++ base] else []
    if entries.length = 0 then
      ⟨3, [], singleErr ++ ["No files added to " ++ outPath],
       if fs.unlinkOk then none else some entries⟩
    else ⟨0, [outPath], singleErr, some entries⟩

/-- Agreement of two directory entries on everything the script reads
(all fields except the mtime metadata). -/
def sameData (a b : FileEntry) : Prop :=
  a.name = b.name ∧ a.isFile = b.isFile ∧ a.xok = b.xok ∧
  a.size = b.size ∧ a.content = b.content

/-- Agreement of two recursive walks: same relative paths, entries
agreeing on everything the script reads. -/
def sameWalk (w₁ w₂ : List (String × FileEntry)) : Prop :=
  List.Forall₂ (fun x y => x.1 = y.1 ∧ sameData x.2 y.2) w₁ w₂

/-- Agreement of two filesystem states on the inputs of archive
construction: existence, listings and walks (up to mtime), manifest. -/
def fsAgree (f₁ f₂ : FS) : Prop :=
  f₁.existsDir = f₂.existsDir ∧
  List.Forall₂ sameData f₁.buildEntries f₂.buildEntries ∧
  sameWalk f₁.buildWalk f₂.buildWalk ∧
  sameWalk f₁.assetsWalk f₂.assetsWalk ∧
  f₁.manifest = f₂.manifest

/-- Relational counterpart of sameData on optional scan results. -/
def optSameData : Option FileEntry → Option FileEntry → Prop
  | none, none => True
  | some a, some b => sameData a b
  | _, _ => False

/-- A small executable build artifact used in concrete runs. -/
def appEntry : FileEntry := ⟨"app", true, some true, some 1000, "app-bytes", 5⟩

/-- The same artifact with different filesystem metadata. -/
def appEntry2 : FileEntry := ⟨"app", true, some true, some 1000, "app-bytes", 99⟩

/-- Default-like configuration in full mode. -/
def cfgFull : Config := ⟨"crates/preflop-trainer-gui", "assets", none, false⟩

/-- A filesystem state whose build walk holds one small executable. -/
def fsApp : FS :=
  ⟨fun _ => true, [], [("app", appEntry)], [], none, none, "Linux", true⟩

/-- The same state up to the artifact's mtime. -/
def fsApp2 : FS :=
  ⟨fun _ => true, [], [("app", appEntry2)], [], none, none, "Linux", true⟩

/-- A filesystem state with an existing build directory, nothing to
package, and a failing unlink. -/
def fsEmpty : FS :=
  ⟨fun _ => true, [], [], [], none, none, "Linux", false⟩

/-- Full-mode configuration whose assets directory will not exist. -/
def cfgNoAssets : Config := ⟨"c", "assets", none, false⟩

/-- A filesystem state where every directory except the assets directory
exists. -/
def fsNoAssets : FS :=
  ⟨fun s => !(s == "assets"), [], [("app", appEntry)], [], none, none, "Linux", true⟩

/-! ## Theorems -/

theorem optOr_some {α : Type} (x : α) (b : Option α) : optOr (some x) b = some x := rfl

theorem optOr_none {α : Type} (b : Option α) : optOr none b = b := rfl

/-- Characterization of the single-mode scan for any accumulator: the
result is the first break entry when one exists; otherwise the
accumulator, when already set; otherwise the first fallback entry. -/
theorem findExe_eq (binName : Option String) (acc : Option FileEntry) (l : List FileEntry) :
    findExe binName acc l
      = optOr (l.find? (isBreakMatch binName)) (optOr acc (l.find? isFallback)) := by
  induction l generalizing acc with
  | nil => cases acc <;> rfl
  | cons p rest ih =>
    by_cases hf : p.isFile = true
    · by_cases hx : exactMatch binName p.name = true
      · simp [findExe, hf, hx, isBreakMatch, optOr]
      · by_cases hs : strLower (pathSuffix p.name) = ".exe"
        · simp [findExe, hf, hx, hs, isBreakMatch, optOr]
        · by_cases he : is_executable p = true
          · cases acc with
            | none =>
              simp [findExe, hf, hx, hs, he, isBreakMatch, isFallback, optOr, ih]
            | some a =>
              simp [findExe, hf, hx, hs, he, isBreakMatch, isFallback, optOr, ih]
          · simp [findExe, hf, hx, hs, he, isBreakMatch, isFallback, optOr, ih]
    · simp [findExe, hf, isBreakMatch, isFallback, optOr, ih]

/-- C1 (amended): in single-file mode the scan is order-driven, not
tiered: the selected entry is the first regular file in iteration order
that either exactly matches the binary name (name or name.exe, when a
nonempty binary name was determined) or has suffix '.exe'; only when no
such entry exists anywhere is the first regular file passing the
executable-permission test selected. An exact-name match is preferred
over a '.exe' entry only when it does not appear later in iteration
order. -/
theorem singleMode_selection (binName : Option String) (l : List FileEntry) :
    findExe binName none l = optOr (l.find? (isBreakMatch binName)) (l.find? isFallback) := by
  rw [findExe_eq, optOr_none]

/-- C1 counterexample: with binary name foo and a directory whose direct
entries are all regular files, the entry bar.exe (merely '.exe'-suffixed)
listed before the exact match foo is selected, while the reversed
iteration order selects foo: the exact-match tier does not beat '.exe'
entries regardless of order. -/
theorem singleMode_pref_order_dependent :
    ceBar.isFile = true ∧ ceFoo.isFile = true ∧
    exactMatch (some "foo") ceFoo.name = true ∧
    exactMatch (some "foo") ceBar.name = false ∧
    findExe (some "foo") none [ceBar, ceFoo] = some ceBar ∧
    findExe (some "foo") none [ceFoo, ceBar] = some ceFoo ∧
    ceBar ≠ ceFoo := by
  decide

/-- For regular files the source inclusion test coincides with the
claim's disjunction. -/
theorem includeFile_eq_claim (p : FileEntry) (h : p.isFile = true) :
    includeFile p = claimIncludeC2 p := by
  unfold includeFile claimIncludeC2 is_executable is_library
  cases hx : p.xok with
  | none => cases hz : p.size <;> simp [h, Bool.or_assoc]
  | some b => cases b <;> cases hz : p.size <;> simp [h, Bool.or_assoc]

/-- C2: in full mode a regular file of the build-directory walk is written
at its relative path exactly when the claim's disjunction holds of it:
the produced entry list is the claim-filtered walk. -/
theorem fullMode_inclusion (walk : List (String × FileEntry)) :
    addBuildFiles walk
      = (walk.filter fun rp => rp.2.isFile && claimIncludeC2 rp.2).map
          fun rp => (rp.1, rp.2.content) := by
  induction walk with
  | nil => rfl
  | cons rp rest ih =>
    by_cases h : rp.2.isFile = true
    · have he := includeFile_eq_claim rp.2 h
      by_cases hc : claimIncludeC2 rp.2 = true
      · have hi : includeFile rp.2 = true := he.trans hc
        simpa [addBuildFiles, List.filterMap_cons, List.filter_cons, h, hc, hi] using ih
      · simp only [Bool.not_eq_true] at hc
        have hi : includeFile rp.2 = false := he.trans hc
        simpa [addBuildFiles, List.filterMap_cons, List.filter_cons, h, hc, hi] using ih
    · simp only [Bool.not_eq_true] at h
      simpa [addBuildFiles, List.filterMap_cons, List.filter_cons, h] using ih

/-- C6: when the assets directory exists every regular file of its walk
is written at 'assets/' ++ its relative path (one count per file); when
it does not exist nothing is written, and the run's archive is then
exactly the filtered build walk, so assets absence is by itself no
error. -/
theorem assets_inclusion (walk : List (String × FileEntry)) :
    addAssetFiles true walk
        = (walk.filter fun rp => rp.2.isFile).map
            (fun rp => ("assets/" ++ rp.1, rp.2.content)) ∧
    (addAssetFiles true walk).length = (walk.filter fun rp => rp.2.isFile).length ∧
    addAssetFiles false walk = [] ∧
    (∀ (cfg : Config) (fs : FS), cfg.single = false → fs.existsDir cfg.assets = false →
      archiveEntriesOf cfg fs = addBuildFiles fs.buildWalk) := by
  have h1 : addAssetFiles true walk
      = (walk.filter fun rp => rp.2.isFile).map
          (fun rp => ("assets/" ++ rp.1, rp.2.content)) := by
    induction walk with
    | nil => rfl
    | cons rp rest ih =>
      by_cases h : rp.2.isFile = true
      · simpa [addAssetFiles, List.filterMap_cons, h] using ih
      · simp only [Bool.not_eq_true] at h
        simpa [addAssetFiles, List.filterMap_cons, h] using ih
  refine ⟨h1, by rw [h1, List.length_map], rfl, ?_⟩
  intro cfg fs hsingle hassets
  simp [archiveEntriesOf, hsingle, hassets, addAssetFiles]

/-- Witness for C6 at a concrete full-mode run without an assets
directory. -/
theorem assets_inclusion_witness :
    fsNoAssets.existsDir cfgNoAssets.assets = false ∧
    archiveEntriesOf cfgNoAssets fsNoAssets = addBuildFiles fsNoAssets.buildWalk :=
  ⟨by decide, (assets_inclusion []).2.2.2 cfgNoAssets fsNoAssets rfl (by decide)⟩

/-- C3 counterexample: the source matcher is a prefix test on the
characters of the word name plus an '=' anywhere in the line, not a token
match: a first line assigning to namespace is taken, where the claim's
token rule would take the later name line. -/
theorem extractName_not_token_rule :
    extractName ["namespace = \"x\"", "name = \"y\""] = some "x" ∧
    extractNameSpec ["namespace = \"x\"", "name = \"y\""] = some "y" ∧
    specTokenMatch "namespace = \"x\"" = false ∧
    some "x" ≠ (some "y" : Option String) := by
  decide

/-- C3 (amended): the extractor returns, for the first line whose
stripped form starts with the characters of the word name and contains
an '=', the substring after the first '=', whitespace-trimmed and
stripped of surrounding double-quote characters; later matching lines
are ignored. For a manifest whose first matching line is
name = \x22foo-bar\x22 it returns foo-bar. -/
theorem extractName_first_match (lines : List String) :
    extractName lines = (lines.find? crudeMatch).map crudeValue ∧
    extractName ["name = \"foo-bar\""] = some "foo-bar" := by
  constructor
  · induction lines with
    | nil => rfl
    | cons l rest ih =>
      by_cases hp : List.isPrefixOf "name".data (pyStrip l).data = true
      · cases he : afterFirstEq (pyStrip l).data with
        | some tail =>
          simp [extractName, crudeMatch, crudeValue, hp, he]
        | none =>
          simpa [extractName, crudeMatch, crudeValue, hp, he] using ih
      · simp only [Bool.not_eq_true] at hp
        simpa [extractName, crudeMatch, hp] using ih
  · decide

/-- C4: the build-directory locator returns the first candidate path that
exists, and signals absence (None) when no candidate exists. -/
theorem find_first_existing_spec (ex : String → Bool) (l : List String) :
    find_first_existing ex l = l.find? ex ∧
    ((∀ p ∈ l, ex p = false) → find_first_existing ex l = none) := by
  constructor
  · induction l with
    | nil => rfl
    | cons p rest ih =>
      by_cases h : ex p
      · simp [find_first_existing, List.find?, h]
      · simp only [Bool.not_eq_true] at h
        simp [find_first_existing, List.find?, h, ih]
  · intro h
    induction l with
    | nil => rfl
    | cons p rest ih =>
      simp only [find_first_existing, h p (List.mem_cons_self p rest)]
      exact ih fun q hq => h q (List.mem_cons_of_mem p hq)

/-- Witness for C4 at a concrete list and filesystem. -/
theorem find_first_existing_spec_witness :
    find_first_existing (fun p => p = "target/release") ["target/debug", "target/release"]
        = ["target/debug", "target/release"].find? (fun p => p = "target/release") ∧
    find_first_existing (fun _ => false) ["target/debug"] = none :=
  ⟨(find_first_existing_spec (fun p => p = "target/release")
      ["target/debug", "target/release"]).1,
   (find_first_existing_spec (fun _ => false) ["target/debug"]).2 (by simp)⟩

/-- C5: outcome-to-exit-code mapping: no build directory gives exit 2
with an error on standard error and no archive; zero files added gives
exit 3 with an error on standard error and (when unlink succeeds) no
archive left on disk; otherwise exit 0 with the archive path printed on
standard output. -/
theorem exit_code_mapping (cfg : Config) (fs : FS) :
    (find_first_existing fs.existsDir (candidatesOf cfg.crate) = none →
      (runMain cfg fs).exitCode = 2 ∧ (runMain cfg fs).stderr ≠ [] ∧
      (runMain cfg fs).stdout = [] ∧ (runMain cfg fs).archiveOnDisk = none) ∧
    ((find_first_existing fs.existsDir (candidatesOf cfg.crate)).isSome = true →
      ((archiveEntriesOf cfg fs).length = 0 →
        (runMain cfg fs).exitCode = 3 ∧ (runMain cfg fs).stderr ≠ [] ∧
        (runMain cfg fs).stdout = [] ∧
        (fs.unlinkOk = true → (runMain cfg fs).archiveOnDisk = none)) ∧
      (0 < (archiveEntriesOf cfg fs).length →
        (runMain cfg fs).exitCode = 0 ∧
        (runMain cfg fs).stdout = [outPathOf cfg fs] ∧
        (runMain cfg fs).archiveOnDisk = some (archiveEntriesOf cfg fs))) := by
  cases hb : find_first_existing fs.existsDir (candidatesOf cfg.crate) with
  | none =>
    refine ⟨fun _ => ?_, fun hs => by simp at hs⟩
    simp [runMain, hb]
  | some base =>
    refine ⟨fun h => by simp at h, fun _ => ⟨fun hz => ?_, fun hp => ?_⟩⟩
    · exact ⟨by simp [runMain, hb, hz], by simp [runMain, hb, hz],
        by simp [runMain, hb, hz], fun hu => by simp [runMain, hb, hz, hu]⟩
    · have hz : ¬(archiveEntriesOf cfg fs).length = 0 := by omega
      refine ⟨?_, ?_, ?_⟩ <;> simp [runMain, hb, hz]

/-- Witness for C5 at a concrete run that packages one executable. -/
theorem exit_code_mapping_witness :
    (runMain cfgFull fsApp).exitCode = 0 ∧
    (runMain cfgFull fsApp).stdout = [outPathOf cfgFull fsApp] :=
  ⟨(((exit_code_mapping cfgFull fsApp).2 (by decide)).2 (by decide)).1,
   (((exit_code_mapping cfgFull fsApp).2 (by decide)).2 (by decide)).2.1⟩

/-- C7: an absent manifest and a manifest whose read raises both leave
the binary name unset, and a run whose manifest read raises is
indistinguishable from a run with no manifest: the failure alone never
changes the process outcome. -/
theorem manifest_failure_silent (cfg : Config) (fs : FS) :
    binNameOf none = none ∧ binNameOf (some none) = none ∧
    runMain cfg { fs with manifest := some none } = runMain cfg { fs with manifest := none } :=
  ⟨rfl, rfl, rfl⟩

/-- C9: an OS-identifying environment variable set to the empty string is
falsy in Python's or-chain, so the runner OS and the derived default
archive name fall back to the detected platform exactly as when the
variable is unset. -/
theorem runner_os_empty_env (crate assets : String) (single : Bool) (fs : FS) :
    runnerOsOf { fs with envRunnerOs := some "" }
        = runnerOsOf { fs with envRunnerOs := none } ∧
    runnerOsOf { fs with envRunnerOs := none } = fs.platformSystem ∧
    outPathOf ⟨crate, assets, none, single⟩ { fs with envRunnerOs := some "" }
        = "gui-" ++ fs.platformSystem ++ ".zip" ∧
    outPathOf ⟨crate, assets, none, single⟩ { fs with envRunnerOs := none }
        = "gui-" ++ fs.platformSystem ++ ".zip" :=
  ⟨rfl, rfl, rfl, rfl⟩

/-- C10: when zero files were added and unlink raises, the exception is
swallowed: the run still reports on standard error and exits 3, and the
empty archive file remains on disk. -/
theorem unlink_failure_swallowed (cfg : Config) (fs : FS)
    (hbase : (find_first_existing fs.existsDir (candidatesOf cfg.crate)).isSome = true)
    (hzero : (archiveEntriesOf cfg fs).length = 0)
    (hunlink : fs.unlinkOk = false) :
    (runMain cfg fs).exitCode = 3 ∧ (runMain cfg fs).stderr ≠ [] ∧
    (runMain cfg fs).archiveOnDisk = some [] := by
  cases hb : find_first_existing fs.existsDir (candidatesOf cfg.crate) with
  | none => rw [hb] at hbase; simp at hbase
  | some base =>
    have hnil : archiveEntriesOf cfg fs = [] := List.length_eq_zero.mp hzero
    refine ⟨?_, ?_, ?_⟩ <;> simp [runMain, hb, hzero, hunlink, hnil]

/-- Witness for C10 at a concrete run with nothing to package and a
failing unlink. -/
theorem unlink_failure_swallowed_witness :
    (runMain cfgFull fsEmpty).exitCode = 3 ∧
    (runMain cfgFull fsEmpty).archiveOnDisk = some [] :=
  ⟨(unlink_failure_swallowed cfgFull fsEmpty (by decide) (by decide) rfl).1,
   (unlink_failure_swallowed cfgFull fsEmpty (by decide) (by decide) rfl).2.2⟩

theorem sameData_is_executable {a b : FileEntry} (h : sameData a b) :
    is_executable a = is_executable b := by
  obtain ⟨h1, h2, h3, h4, h5⟩ := h
  simp [is_executable, h1, h2, h3]

theorem sameData_includeFile {a b : FileEntry} (h : sameData a b) :
    includeFile a = includeFile b := by
  obtain ⟨h1, h2, h3, h4, h5⟩ := h
  simp [includeFile, is_executable, is_library, h1, h2, h3, h4]

/-- filterMap congruence along a pointwise relation between two lists. -/
theorem filterMap_rel_congr {α β γ : Type} {R : α → β → Prop}
    {f : α → Option γ} {g : β → Option γ}
    (hfg : ∀ x y, R x y → f x = g y) :
    ∀ {l₁ : List α} {l₂ : List β}, List.Forall₂ R l₁ l₂ →
      l₁.filterMap f = l₂.filterMap g := by
  intro l₁ l₂ h
  induction h with
  | nil => rfl
  | cons hxy hrest ih => simp [List.filterMap_cons, hfg _ _ hxy, ih]

theorem addBuildFiles_congr {w₁ w₂ : List (String × FileEntry)} (h : sameWalk w₁ w₂) :
    addBuildFiles w₁ = addBuildFiles w₂ := by
  refine filterMap_rel_congr ?_ h
  rintro x y ⟨hk, hd⟩
  rw [show x.2.isFile = y.2.isFile from hd.2.1, sameData_includeFile hd, hk,
     show x.2.content = y.2.content from hd.2.2.2.2]

theorem addAssetFiles_congr (b : Bool) {w₁ w₂ : List (String × FileEntry)}
    (h : sameWalk w₁ w₂) :
    addAssetFiles b w₁ = addAssetFiles b w₂ := by
  cases b with
  | false => rfl
  | true =>
    simp only [addAssetFiles, if_pos]
    refine filterMap_rel_congr ?_ h
    rintro x y ⟨hk, hd⟩
    rw [show x.2.isFile = y.2.isFile from hd.2.1, hk,
       show x.2.content = y.2.content from hd.2.2.2.2]

theorem findExe_congr (binName : Option String) :
    ∀ {l₁ l₂ : List FileEntry}, List.Forall₂ sameData l₁ l₂ →
    ∀ {acc₁ acc₂ : Option FileEntry}, optSameData acc₁ acc₂ →
    optSameData (findExe binName acc₁ l₁) (findExe binName acc₂ l₂) := by
  intro l₁ l₂ hl
  induction hl with
  | nil => intro acc₁ acc₂ hacc; exact hacc
  | @cons a b l₁' l₂' hab hrest ih =>
    intro acc₁ acc₂ hacc
    have h1 : a.name = b.name := hab.1
    have h2 : a.isFile = b.isFile := hab.2.1
    have hex : is_executable a = is_executable b := sameData_is_executable hab
    by_cases hf : b.isFile = true
    · by_cases hx : exactMatch binName b.name = true
      · simpa [findExe, h1, h2, hf, hx] using hab
      · by_cases hs : strLower (pathSuffix b.name) = ".exe"
        · simpa [findExe, h1, h2, hf, hx, hs] using hab
        · by_cases he : is_executable b = true
          · cases acc₁ with
            | none =>
              cases acc₂ with
              | none =>
                simpa [findExe, h1, h2, hex, hf, hx, hs, he] using
                  ih (show optSameData (some a) (some b) from hab)
              | some c => exact absurd hacc (by simp [optSameData])
            | some c =>
              cases acc₂ with
              | none => exact absurd hacc (by simp [optSameData])
              | some d =>
                simpa [findExe, h1, h2, hex, hf, hx, hs, he] using ih hacc
          · simpa [findExe, h1, h2, hex, hf, hx, hs, he] using ih hacc
    · simp only [Bool.not_eq_true] at hf
      simpa [findExe, h1, h2, hf] using ih hacc

theorem singleEntries_congr (binName : Option String)
    {l₁ l₂ : List FileEntry} (h : List.Forall₂ sameData l₁ l₂) :
    singleEntries binName l₁ = singleEntries binName l₂ := by
  have hres := @findExe_congr binName l₁ l₂ h none none trivial
  cases he₁ : findExe binName none l₁ with
  | none =>
    cases he₂ : findExe binName none l₂ with
    | none => simp [singleEntries, he₁, he₂]
    | some e => rw [he₁, he₂] at hres; exact absurd hres (by simp [optSameData])
  | some e =>
    cases he₂ : findExe binName none l₂ with
    | none => rw [he₁, he₂] at hres; exact absurd hres (by simp [optSameData])
    | some e' =>
      rw [he₁, he₂] at hres
      simp [singleEntries, he₁, he₂, show e.name = e'.name from hres.1,
        show e.content = e'.content from hres.2.2.2.2]

/-- C8: packaging is deterministic in the inputs the script reads: two
runs over filesystem states that agree on directory existence, listings,
walks (up to metadata such as mtimes) and the manifest produce archives
with the same entry names and the same contents. -/
theorem packaging_deterministic (cfg : Config) (f₁ f₂ : FS) (h : fsAgree f₁ f₂) :
    archiveEntriesOf cfg f₁ = archiveEntriesOf cfg f₂ := by
  obtain ⟨hex, hlist, hbw, haw, hman⟩ := h
  unfold archiveEntriesOf
  by_cases hs : cfg.single = true
  · rw [if_pos hs, if_pos hs, hman]
    exact singleEntries_congr _ hlist
  · rw [if_neg hs, if_neg hs, hex, addAssetFiles_congr (f₂.existsDir cfg.assets) haw,
       addBuildFiles_congr hbw]

/-- Witness for C8 at two concrete states differing only in an mtime. -/
theorem packaging_deterministic_witness :
    fsAgree fsApp fsApp2 ∧
    archiveEntriesOf cfgFull fsApp = archiveEntriesOf cfgFull fsApp2 := by
  have hagree : fsAgree fsApp fsApp2 :=
    ⟨rfl, List.Forall₂.nil,
     List.Forall₂.cons ⟨rfl, rfl, rfl, rfl, rfl, rfl⟩ List.Forall₂.nil,
     List.Forall₂.nil, rfl⟩
  exact ⟨hagree, packaging_deterministic cfgFull fsApp fsApp2 hagree⟩

end PackageGui
